import Mathlib

/-!
Verification of the query-shaping and result-materialization pipeline of the
Snowflake RunSQL action.  The definitions below are shallow embeddings of the
TypeScript functions in the repository (the revision carrying the persistence
pipeline): strings are `List Char`, machine numbers used as row caps are `Nat`
(for the SQL rewriting, whose caps are positive integers) or `Option ℚ` (for
the row-cap clamp, where `none` stands for a `NaN` parse), and the regular
expressions of the source are translated into recursive character scanners
covering the ASCII character classes the source relies on.
-/

set_option autoImplicit false

/-- Whitespace test used by the embedding: the ASCII whitespace characters
recognized by both the JavaScript string trim and the regex class used in the
source (space, tab, line feed, carriage return, vertical tab, form feed). -/
def isWsJs (c : Char) : Bool :=
  c.toNat = 32 || c.toNat = 9 || c.toNat = 10 || c.toNat = 13 || c.toNat = 11 || c.toNat = 12

/-- Decimal digit test, the regex class of digits 0-9. -/
def isDigitJs (c : Char) : Bool :=
  48 ≤ c.toNat && c.toNat ≤ 57

/-- Word-character test, the regex word class: ASCII letters, digits and the
underscore.  It decides the word boundary of the limit-detection regex. -/
def isWordJs (c : Char) : Bool :=
  (65 ≤ c.toNat && c.toNat ≤ 90) || (97 ≤ c.toNat && c.toNat ≤ 122) || isDigitJs c || c.toNat = 95

/-- Embedding of the JavaScript string trim: drop ASCII whitespace from both
ends of the character list. -/
def trimJs (l : List Char) : List Char :=
  ((l.dropWhile isWsJs).reverse.dropWhile isWsJs).reverse

/-- Fuel-indexed state machine for the line-comment regex replacement: in
normal mode (flag false) a double dash switches to comment mode (flag true),
which discards characters up to (and excluding) the next line terminator.
This mirrors removing each match of a dash-dash-to-end-of-line pattern in
multiline mode, where the dot matches neither a line feed nor a carriage
return. -/
def slcFuel : Nat → Bool → List Char → List Char
  | 0, _, l => l
  | _ + 1, _, [] => []
  | f + 1, true, c :: rest =>
    if c = '\n' || c = '\r' then c :: slcFuel f false rest else slcFuel f true rest
  | _ + 1, false, [c] => [c]
  | f + 1, false, c :: d :: rest' =>
    if c = '-' && d = '-' then slcFuel f true rest' else c :: slcFuel f false (d :: rest')

/-- Embedding of the first replacement in stripSqlComments: remove line
comments (double dash to end of line). -/
def stripLineComments (l : List Char) : List Char := slcFuel l.length false l

/-- Scanner locating the first closing marker of a block comment; returns the
characters after it, or none when the comment is unclosed. -/
def findCloseBlock : List Char → Option (List Char)
  | [] => none
  | c :: rest =>
    match rest with
    | [] => none
    | d :: rest' => if c = '*' && d = '/' then some rest' else findCloseBlock rest

/-- Fuel-indexed scanner for the block-comment regex replacement: an opening
marker followed (lazily) by a closing marker is removed; an unclosed opening
marker is left in place, matching the non-greedy regex which then has no
match anywhere in the remainder. -/
def sbcFuel : Nat → List Char → List Char
  | 0, l => l
  | _ + 1, [] => []
  | f + 1, c :: rest =>
    match rest with
    | [] => [c]
    | d :: rest' =>
      if c = '/' && d = '*' then
        match findCloseBlock rest' with
        | some after => sbcFuel f after
        | none => c :: rest
      else c :: sbcFuel f rest

/-- Embedding of the second replacement in stripSqlComments: remove closed
block comments. -/
def stripBlockComments (l : List Char) : List Char := sbcFuel l.length l

/-- Embedding of stripSqlComments: line comments are removed first, then
block comments, exactly as the two chained regex replacements do. -/
def stripSqlComments (l : List Char) : List Char :=
  stripBlockComments (stripLineComments l)

/-- Case-insensitive match of the literal letters of the limit keyword at the
head of the list, returning the remainder on success. -/
def startsWithLimitCI : List Char → Option (List Char)
  | c1 :: c2 :: c3 :: c4 :: c5 :: rest =>
    if c1.toLower = 'l' && c2.toLower = 'i' && c3.toLower = 'm' && c4.toLower = 'i' && c5.toLower = 't'
    then some rest else none
  | _ => none

/-- Continuation of the limit-detection regex after at least one whitespace
character: accept a digit, possibly after further whitespace. -/
def wsDigitTail : List Char → Bool
  | [] => false
  | c :: rest => if isDigitJs c then true else if isWsJs c then wsDigitTail rest else false

/-- Suffix test for the limit-detection regex: one or more whitespace
characters followed by at least one digit. -/
def wsThenDigit : List Char → Bool
  | [] => false
  | c :: rest => isWsJs c && wsDigitTail rest

/-- Scanner for the limit-detection regex: at every position preceded by a
non-word character (or the start), try the case-insensitive limit keyword
followed by whitespace and a digit.  The Boolean argument records whether the
previous character was a word character. -/
def hasLimitAux : Bool → List Char → Bool
  | _, [] => false
  | prevWord, c :: rest =>
    (!prevWord &&
      (match startsWithLimitCI (c :: rest) with
       | some tail => wsThenDigit tail
       | none => false))
    || hasLimitAux (isWordJs c) rest

/-- Embedding of the limit-detection test of enforceSqlLimit: true iff the
text contains a word-boundary limit keyword followed by whitespace and a
number. -/
def hasLimitNum (l : List Char) : Bool := hasLimitAux false l

/-- Helper of stripTrailingSemicolons, working on the reversed text: drop
trailing whitespace, then repeatedly a semicolon followed by more trailing
whitespace, recording whether any semicolon was removed. -/
def revStripSemis : List Char → List Char × Bool
  | [] => ([], false)
  | c :: rest =>
    if isWsJs c then revStripSemis rest
    else if c = ';' then ((revStripSemis rest).1, true)
    else (c :: rest, false)

/-- Embedding of stripTrailingSemicolons: trim the end, strip semicolons
repeatedly, and report whether any semicolon was present. -/
def stripTrailingSemicolons (l : List Char) : List Char × Bool :=
  let r := revStripSemis l.reverse
  (r.1.reverse, r.2)

/-- Decimal digit character for a value below ten (the only use). -/
def digitChar (n : Nat) : Char :=
  if n = 0 then '0' else if n = 1 then '1' else if n = 2 then '2' else if n = 3 then '3'
  else if n = 4 then '4' else if n = 5 then '5' else if n = 6 then '6' else if n = 7 then '7'
  else if n = 8 then '8' else '9'

/-- Fuel-indexed decimal rendering of a natural number (most significant digit
first), the text form the template literal of the source produces for the
integer row caps. -/
def natDigitsAux : Nat → Nat → List Char → List Char
  | 0, _, acc => acc
  | f + 1, n, acc =>
    if n < 10 then digitChar n :: acc else natDigitsAux f (n / 10) (digitChar (n % 10) :: acc)

/-- Decimal text of a natural number. -/
def natDigits (n : Nat) : List Char := natDigitsAux (n + 1) n []

/-- Decision record of the SQL limiter, mirroring the LimitPlan interface. -/
structure LimitPlan where
  sql : List Char
  applied : Bool
  reason : Option (List Char)
deriving DecidableEq, Repr

/-- Allow-list of row-producing first tokens (the LIMITABLE_PREFIXES set). -/
def limitableTokens : List (List Char) :=
  ["SELECT".toList, "WITH".toList, "SHOW".toList, "DESC".toList, "DESCRIBE".toList]

/-- First whitespace/paren-delimited token of the text, upper-cased, the
statement-type discriminator of enforceSqlLimit. -/
def firstTokenUpper (l : List Char) : List Char :=
  (l.takeWhile (fun c => (!isWsJs c) && !(c == '('))).map Char.toUpper

/-- Paren test for the parenthesized-subquery fallback branch. -/
def startsWithParen : List Char → Bool
  | [] => false
  | c :: _ => c == '('

/-- Embedding of enforceSqlLimit: trim, refuse empty input, detect an existing
limit on the comment-stripped view, append a limit for allow-listed statement
types (preserving one trailing semicolon), wrap select-like or parenthesized
statements as a subquery, and otherwise leave the statement unchanged. -/
def enforceSqlLimit (sqlText : List Char) (maxRows : Nat) : LimitPlan :=
  if trimJs sqlText = [] then
    { sql := trimJs sqlText, applied := false, reason := some "empty-sql".toList }
  else if hasLimitNum (stripSqlComments (trimJs sqlText)) then
    { sql := trimJs sqlText, applied := false, reason := some "existing-limit-detected".toList }
  else if firstTokenUpper (trimJs sqlText) ∈ limitableTokens then
    { sql := (stripTrailingSemicolons (trimJs sqlText)).1 ++
        [' ', 'l', 'i', 'm', 'i', 't', ' '] ++ natDigits maxRows ++
        (if (stripTrailingSemicolons (trimJs sqlText)).2 then [';'] else []),
      applied := true, reason := none }
  else if "SELECT".toList.isPrefixOf (firstTokenUpper (trimJs sqlText)) ||
      startsWithParen (trimJs sqlText) then
    { sql := ['s', 'e', 'l', 'e', 'c', 't', ' ', '*', ' ', 'f', 'r', 'o', 'm', ' ', '(', '\n'] ++
        trimJs sqlText ++ ['\n', ')', ' ', 'l', 'i', 'm', 'i', 't', ' '] ++ natDigits maxRows,
      applied := true, reason := none }
  else
    { sql := trimJs sqlText, applied := false,
      reason := some "statement-type-not-supported-for-limit".toList }

example : natDigits 10 = ['1', '0'] := by decide
example : natDigits 0 = ['0'] := by decide
example : stripSqlComments "a -- b\nc".toList = "a \nc".toList := by decide
example : stripSqlComments "a /* b */c".toList = "a c".toList := by decide
example : stripSqlComments "a /* b".toList = "a /* b".toList := by decide
example : hasLimitNum "select 1 limit 5".toList = true := by decide
example : hasLimitNum "select delimit 3".toList = false := by decide
example : hasLimitNum "select 1 limit5".toList = false := by decide
example : hasLimitNum "select 1 LIMIT  42".toList = true := by decide
example : enforceSqlLimit "select * from t".toList 10 =
    { sql := "select * from t limit 10".toList, applied := true, reason := none } := by decide
example : enforceSqlLimit "select * from t;".toList 10 =
    { sql := "select * from t limit 10;".toList, applied := true, reason := none } := by decide
example : enforceSqlLimit "insert into t values (1)".toList 10 =
    { sql := "insert into t values (1)".toList, applied := false,
      reason := some "statement-type-not-supported-for-limit".toList } := by decide
example : enforceSqlLimit "  ".toList 10 =
    { sql := [], applied := false, reason := some "empty-sql".toList } := by decide
example : enforceSqlLimit "(select 1 union select 2)".toList 3 =
    { sql := "select * from (\n(select 1 union select 2)\n) limit 3".toList,
      applied := true, reason := none } := by decide
example : enforceSqlLimit "select2".toList 3 =
    { sql := "select * from (\nselect2\n) limit 3".toList,
      applied := true, reason := none } := by decide

/-- Embedding of clampRows, parameterized by the administrative ceiling (the
two observed revisions use 1000 and 10000).  The numeric parse of the input
string is abstracted as an optional rational: none models a NaN parse, some r
a finite parsed value (the missing-input case parses the empty string, whose
numeric value is zero, hence some 0). -/
def clampRowsNum (cap : ℚ) (parsed : Option ℚ) : ℚ :=
  match parsed with
  | none => 100
  | some raw => if raw ≤ 0 then 100 else min cap raw

/-- Row-cap clamp of the revision with ceiling 1000. -/
def clampRows (parsed : Option ℚ) : ℚ := clampRowsNum 1000 parsed

/-- Row-cap clamp of the revision with ceiling 10000. -/
def clampRows10k (parsed : Option ℚ) : ℚ := clampRowsNum 10000 parsed

example : clampRows none = 100 := by decide
example : clampRows (some 0) = 100 := by decide
example : clampRows (some (-7)) = 100 := by decide
example : clampRows (some 2500) = 1000 := by decide
example : clampRows10k (some 2500) = 2500 := by decide
example : clampRows (some 42) = 42 := by decide

/-- Value of one CSV cell as csvEscape distinguishes them: null or undefined;
a date, carried as its ISO-8601 text (the text toISOString produces); a
structured value, carried as its JSON text (the text JSON.stringify
produces); or any other scalar, carried as its natural string form. -/
inductive CellValue where
  | vnull : CellValue
  | vdate (iso : List Char) : CellValue
  | vobj (json : List Char) : CellValue
  | vscalar (s : List Char) : CellValue
deriving DecidableEq, Repr

/-- Stringification step of csvEscape, before the quoting step. -/
def stringifyCell : CellValue → List Char
  | .vnull => []
  | .vdate iso => iso
  | .vobj json => json
  | .vscalar s => s

/-- Quoting trigger of csvEscape: the field contains a double quote, a comma,
a line feed or a carriage return. -/
def needsCsvQuote (l : List Char) : Bool :=
  l.any (fun c => c = '"' || c = ',' || c = '\n' || c = '\r')

/-- Replacement doubling every double quote of the field. -/
def doubleQuotes (l : List Char) : List Char :=
  (l.map (fun c => if c = '"' then ['"', '"'] else [c])).flatten

/-- Embedding of csvEscape: stringify the value, then wrap it in double
quotes (doubling embedded quotes) iff it contains a quote, comma or line
break. -/
def csvEscape (v : CellValue) : List Char :=
  if needsCsvQuote (stringifyCell v) then
    '"' :: (doubleQuotes (stringifyCell v) ++ ['"'])
  else stringifyCell v

example : csvEscape (.vscalar "x,y".toList) = "\"x,y\"".toList := by decide
example : csvEscape (.vscalar "he said \"hi\"".toList) = "\"he said \"\"hi\"\"\"".toList := by
  decide
example : csvEscape .vnull = [] := by decide
example : csvEscape (.vscalar "plain".toList) = "plain".toList := by decide

/-- Row of a result set: an ordered mapping from column names to cell values
(duplicate keys impossible within one row in the source, where rows are
objects). -/
abbrev Row := List (List Char × CellValue)

/-- Property access on a row: the value under the key, if present. -/
def rowLookup (row : Row) (key : List Char) : Option CellValue :=
  match row with
  | [] => none
  | kv :: rest => if kv.1 = key then some kv.2 else rowLookup rest key

/-- Property access as csvEscape consumes it: a missing key reads as an
undefined value, which csvEscape treats exactly like null. -/
def rowGet (row : Row) (key : List Char) : CellValue :=
  (rowLookup row key).getD .vnull

/-- Column discovery of buildCsvPayload: the union of the keys of all rows,
in first-seen order (the seen-set of the source is equivalently membership in
the accumulated column list). -/
def collectColumns (rows : List Row) : List (List Char) :=
  rows.foldl
    (fun acc row => row.foldl (fun acc2 kv => if kv.1 ∈ acc2 then acc2 else acc2 ++ [kv.1]) acc)
    []

/-- Header line of buildCsvPayload: the escaped column names, comma-joined. -/
def headerLine (cols : List (List Char)) : List Char :=
  List.intercalate [','] (cols.map (fun c => csvEscape (.vscalar c)))

/-- Data line of buildCsvPayload for one row: the escaped values in column
order, comma-joined. -/
def csvLine (cols : List (List Char)) (row : Row) : List Char :=
  List.intercalate [','] (cols.map (fun c => csvEscape (rowGet row c)))

/-- Embedding of buildCsvPayload: the empty row set yields the empty string;
otherwise the header line and one line per row are newline-joined with a
trailing terminator. -/
def buildCsvPayload (rows : List Row) : List Char :=
  if rows = [] then []
  else
    List.intercalate ['\n']
      (headerLine (collectColumns rows) :: rows.map (csvLine (collectColumns rows))) ++ ['\n']

example : buildCsvPayload [] = [] := by decide
example :
    buildCsvPayload
      [[("a".toList, .vscalar "1".toList), ("b".toList, .vscalar "2".toList)],
       [("a".toList, .vscalar "3".toList)]] = "a,b\n1,2\n3,\n".toList := by decide

/-- Derived artifact paths, mirroring the PersistedFiles interface. -/
structure PersistedFiles where
  csvPath : List Char
  metadataPath : List Char
deriving DecidableEq, Repr

/-- Character class kept by sanitizeForFilename: letters, digits, dot,
underscore and dash. -/
def isSafeFilenameChar (c : Char) : Bool :=
  (65 ≤ c.toNat && c.toNat ≤ 90) || (97 ≤ c.toNat && c.toNat ≤ 122) || isDigitJs c ||
    c.toNat = 46 || c.toNat = 95 || c.toNat = 45

/-- Embedding of sanitizeForFilename: every character outside the safe class
becomes a dash. -/
def sanitizeForFilename (l : List Char) : List Char :=
  l.map (fun c => if isSafeFilenameChar c then c else '-')

/-- Last dash-delimited segment of the text (the pop of the dash split). -/
def lastDashSegment (l : List Char) : List Char :=
  (l.reverse.takeWhile (fun c => !(c == '-'))).reverse

/-- Embedding of the base-name/extension split the path parse performs on a
plain file name (no directory separators): split at the last dot, except when
there is no dot or the only trailing dot position is the first character (a
dotfile keeps the dot in its name and has no extension). -/
def parseNameExt (f : List Char) : List Char × List Char :=
  let tailLen := (f.reverse.takeWhile (fun c => !(c == '.'))).length
  if tailLen ≥ f.length then (f, [])
  else if f.length - tailLen - 1 = 0 then (f, [])
  else (f.take (f.length - tailLen - 1), f.drop (f.length - tailLen - 1))

example : parseNameExt "snowflake-result.csv".toList = ("snowflake-result".toList, ".csv".toList) := by decide
example : parseNameExt "foo.tar.gz".toList = ("foo.tar".toList, ".gz".toList) := by decide
example : parseNameExt "noext".toList = ("noext".toList, []) := by decide
example : parseNameExt ".bashrc".toList = (".bashrc".toList, []) := by decide

/-- Safe id token derived from a query identifier: the query id (or the
literal result when empty) loses everything up to its last dash, with the
literal result again substituted when that last segment is empty. -/
def idTokenOf (queryId : List Char) : List Char :=
  let q := if queryId = [] then "result".toList else queryId
  let seg := lastDashSegment q
  if seg = [] then "result".toList else seg

/-- Join of a directory and a file name, for a directory path with no
trailing separator as the action resolves them. -/
def pathJoin (dir name : List Char) : List Char := dir ++ '/' :: name

/-- Embedding of buildPersistedPaths: default base name and extension, safe
id token from the query id, and sibling CSV/metadata names under the base
directory. -/
def buildPersistedPaths (queryId filename baseDir : List Char) : PersistedFiles :=
  let parsed := parseNameExt filename
  let baseName := if parsed.1 = [] then "snowflake-result".toList else parsed.1
  let ext := if parsed.2 = [] then ".csv".toList else parsed.2
  let safeId := sanitizeForFilename (idTokenOf queryId)
  { csvPath := pathJoin baseDir (baseName ++ '-' :: (safeId ++ ext)),
    metadataPath := pathJoin baseDir (baseName ++ '-' :: (safeId ++ ".meta.json".toList)) }

example :
    buildPersistedPaths "01b2-0001-abcd".toList "snowflake-result.csv".toList "/tmp/run".toList =
      { csvPath := "/tmp/run/snowflake-result-abcd.csv".toList,
        metadataPath := "/tmp/run/snowflake-result-abcd.meta.json".toList } := by decide
example :
    (buildPersistedPaths "abc-123".toList "snowflake-result.csv".toList "/tmp/run".toList).csvPath =
      "/tmp/run/snowflake-result-123.csv".toList := by decide
example :
    (buildPersistedPaths "a/b".toList "f.csv".toList "/d".toList).csvPath =
      "/d/f-a-b.csv".toList := by decide

/-- Observable effects of the persistence section of the orchestrator run:
how many persistence warnings were logged, the two action outputs for the
artifact paths, whether the summary was printed, and whether the run was
marked failed. -/
structure RunEffects where
  persistWarnings : Nat
  resultFileOutput : List Char
  resultMetadataFileOutput : List Char
  summaryEmitted : Bool
  runFailed : Bool
deriving DecidableEq, Repr

/-- Embedding of the tail of the orchestrator main after the query succeeded:
the summary is printed, then, when persistence is enabled, persistResults is
awaited inside a try/catch whose catch logs one warning and leaves the two
path variables at their empty initial values; the two outputs are then set
from those variables and no failure is recorded.  The filesystem outcome of
persistResults (any of its directory reset, directory creation or file
writes rejecting) is abstracted as an exceptional result. -/
def persistencePhase (enabled : Bool) (outcome : Except (List Char) PersistedFiles) : RunEffects :=
  if enabled then
    match outcome with
    | .ok files =>
      { persistWarnings := 0, resultFileOutput := files.csvPath,
        resultMetadataFileOutput := files.metadataPath, summaryEmitted := true, runFailed := false }
    | .error _ =>
      { persistWarnings := 1, resultFileOutput := [],
        resultMetadataFileOutput := [], summaryEmitted := true, runFailed := false }
  else
    { persistWarnings := 0, resultFileOutput := [],
      resultMetadataFileOutput := [], summaryEmitted := true, runFailed := false }

/-- Occurrence test for a two-character marker: true iff the characters a, b
appear adjacently in this order.  The comment markers of stripSqlComments are
the dash-dash and slash-star pairs. -/
def containsPair (a b : Char) : List Char → Bool
  | [] => false
  | [_] => false
  | x :: y :: rest => (x == a && y == b) || containsPair a b (y :: rest)

/-! Helper lemmas about dropWhile and the trim embedding. -/

theorem dropWhile_head_false (p : Char → Bool) :
    ∀ (l : List Char) (c : Char) (t : List Char), l.dropWhile p = c :: t → p c = false := by
  intro l
  induction l with
  | nil => intro c t h; simp [List.dropWhile] at h
  | cons a rest ih =>
    intro c t h
    rw [List.dropWhile_cons] at h
    by_cases hp : p a = true
    · rw [if_pos hp] at h; exact ih c t h
    · rw [if_neg hp] at h
      cases h
      simpa using hp

theorem dropWhile_eq_self_of (p : Char → Bool) (l : List Char)
    (h : ∀ c t, l = c :: t → p c = false) : l.dropWhile p = l := by
  cases l with
  | nil => rfl
  | cons c t =>
    rw [List.dropWhile_cons, if_neg]
    simp [h c t rfl]

theorem dropWhile_decomp (p : Char → Bool) (l : List Char) :
    ∃ u, u ++ l.dropWhile p = l := by
  induction l with
  | nil => exact ⟨[], rfl⟩
  | cons c rest ih =>
    rw [List.dropWhile_cons]
    by_cases hp : p c = true
    · obtain ⟨u, hu⟩ := ih
      exact ⟨c :: u, by simp [hp, hu]⟩
    · exact ⟨[], by simp [hp]⟩

theorem trimJs_rev_head_false (l : List Char) (c : Char) (t : List Char)
    (h : (trimJs l).reverse = c :: t) : isWsJs c = false := by
  unfold trimJs at h
  rw [List.reverse_reverse] at h
  exact dropWhile_head_false isWsJs _ c t h

theorem trimJs_head_false (l : List Char) (c : Char) (t : List Char)
    (h : trimJs l = c :: t) : isWsJs c = false := by
  obtain ⟨u, hu⟩ := dropWhile_decomp isWsJs (l.dropWhile isWsJs).reverse
  have hL : l.dropWhile isWsJs = trimJs l ++ u.reverse := by
    have := congrArg List.reverse hu
    rw [List.reverse_append, List.reverse_reverse] at this
    exact this.symm
  rw [h] at hL
  exact dropWhile_head_false isWsJs l c (t ++ u.reverse) (by simpa using hL)

theorem trimJs_eq_self (l : List Char)
    (h1 : ∀ c t, l = c :: t → isWsJs c = false)
    (h2 : ∀ c t, l.reverse = c :: t → isWsJs c = false) : trimJs l = l := by
  unfold trimJs
  rw [dropWhile_eq_self_of isWsJs l h1, dropWhile_eq_self_of isWsJs l.reverse h2,
    List.reverse_reverse]

theorem trimJs_idem (l : List Char) : trimJs (trimJs l) = trimJs l :=
  trimJs_eq_self (trimJs l) (trimJs_head_false l)
    (fun c t h => trimJs_rev_head_false l c t h)

theorem enforceSqlLimit_trim (s : List Char) (m : Nat) :
    enforceSqlLimit (trimJs s) m = enforceSqlLimit s m := by
  simp only [enforceSqlLimit, trimJs_idem]

theorem enforceSqlLimit_sql_of_not_applied (s : List Char) (m : Nat)
    (h : (enforceSqlLimit s m).applied = false) : (enforceSqlLimit s m).sql = trimJs s := by
  unfold enforceSqlLimit at h ⊢
  split_ifs at h ⊢ <;> simp_all

/-- C8: for every SQL text and row cap on which the limiter does not apply a
limit, feeding the resulting sql back to the limiter with the same cap
reproduces the identical plan (same sql, applied flag and reason). -/
theorem enforceSqlLimit_idem_unapplied (s : List Char) (m : Nat)
    (h : (enforceSqlLimit s m).applied = false) :
    enforceSqlLimit (enforceSqlLimit s m).sql m = enforceSqlLimit s m := by
  rw [enforceSqlLimit_sql_of_not_applied s m h, enforceSqlLimit_trim]

/-- Witness for C8 at a statement the limiter leaves unmodified. -/
theorem enforceSqlLimit_idem_unapplied_witness :
    enforceSqlLimit (enforceSqlLimit "update t set x = 1".toList 5).sql 5 =
      enforceSqlLimit "update t set x = 1".toList 5 :=
  enforceSqlLimit_idem_unapplied "update t set x = 1".toList 5 (by decide)

/-- C2: for every non-empty SQL text whose comment-stripped view contains a
case-insensitive limit-number token, and every row cap, the limiter reports
applied false with reason existing-limit-detected and returns the trimmed
input unchanged. -/
theorem enforceSqlLimit_existing_limit (s : List Char) (m : Nat)
    (hne : s ≠ [])
    (h : hasLimitNum (stripSqlComments (trimJs s)) = true) :
    enforceSqlLimit s m =
      { sql := trimJs s, applied := false,
        reason := some "existing-limit-detected".toList } := by
  have ht : trimJs s ≠ [] := by
    intro h0
    rw [h0] at h
    exact absurd h (by decide)
  unfold enforceSqlLimit
  rw [if_neg ht, if_pos h]

/-- Witness for C2 at a query that already carries a limit clause. -/
theorem enforceSqlLimit_existing_limit_witness :
    enforceSqlLimit "select * from t limit 5".toList 99 =
      { sql := "select * from t limit 5".toList, applied := false,
        reason := some "existing-limit-detected".toList } := by
  have := enforceSqlLimit_existing_limit "select * from t limit 5".toList 99
    (by decide) (by decide)
  rw [this]
  decide

/-- C9: every plan the limiter returns has a reason exactly when no limit was
applied, and its sql is empty only for empty or whitespace-only input, which
yields the empty-sql plan. -/
theorem enforceSqlLimit_invariants (s : List Char) (m : Nat) :
    ((enforceSqlLimit s m).reason ≠ none ↔ (enforceSqlLimit s m).applied = false)
    ∧ (trimJs s = [] →
        enforceSqlLimit s m =
          { sql := [], applied := false, reason := some "empty-sql".toList })
    ∧ (trimJs s ≠ [] → (enforceSqlLimit s m).sql ≠ []) := by
  unfold enforceSqlLimit
  split_ifs with h0 h1 h2 h3 <;>
    refine ⟨by simp, fun he => ?_, fun hn => ?_⟩ <;> simp_all

/-- Witness for C9 exercising both the empty-input and non-empty cases. -/
theorem enforceSqlLimit_invariants_witness :
    (enforceSqlLimit "  ".toList 7 =
      { sql := [], applied := false, reason := some "empty-sql".toList })
    ∧ (enforceSqlLimit "select 1".toList 7).sql ≠ [] :=
  ⟨(enforceSqlLimit_invariants "  ".toList 7).2.1 (by decide),
   (enforceSqlLimit_invariants "select 1".toList 7).2.2 (by decide)⟩

/-- C3: for every SQL text with no pre-existing limit whose first token is in
the allow-list, the limiter strips trailing semicolons, appends a limit
clause with the cap, restores a single trailing semicolon exactly when one
was present, and reports applied true; in particular the spec example with a
trailing semicolon.  Stated as the general branch equation plus that
example. -/
theorem enforceSqlLimit_allowlist :
    (∀ (s : List Char) (m : Nat),
      hasLimitNum (stripSqlComments (trimJs s)) = false →
      firstTokenUpper (trimJs s) ∈ limitableTokens →
      enforceSqlLimit s m =
        { sql := (stripTrailingSemicolons (trimJs s)).1 ++ [' ', 'l', 'i', 'm', 'i', 't', ' '] ++
            natDigits m ++ (if (stripTrailingSemicolons (trimJs s)).2 then [';'] else []),
          applied := true, reason := none })
    ∧ enforceSqlLimit "select * from t;".toList 10 =
        { sql := "select * from t limit 10;".toList, applied := true, reason := none } := by
  constructor
  · intro s m hnl htok
    have ht : trimJs s ≠ [] := by
      intro h0
      rw [h0] at htok
      exact absurd htok (by decide)
    unfold enforceSqlLimit
    rw [if_neg ht, if_neg (by simp [hnl]), if_pos htok]
  · decide

/-- Witness for C3 at a semicolon-free allow-listed query. -/
theorem enforceSqlLimit_allowlist_witness :
    enforceSqlLimit "show tables".toList 3 =
      { sql := (stripTrailingSemicolons (trimJs "show tables".toList)).1 ++
          [' ', 'l', 'i', 'm', 'i', 't', ' '] ++ natDigits 3 ++
          (if (stripTrailingSemicolons (trimJs "show tables".toList)).2 then [';'] else []),
        applied := true, reason := none } :=
  enforceSqlLimit_allowlist.1 "show tables".toList 3 (by decide) (by decide)

theorem trimJs_decomp (l : List Char) : ∃ u v, u ++ (trimJs l ++ v) = l := by
  obtain ⟨u, hu⟩ := dropWhile_decomp isWsJs l
  obtain ⟨w, hw⟩ := dropWhile_decomp isWsJs (l.dropWhile isWsJs).reverse
  refine ⟨u, w.reverse, ?_⟩
  have : l.dropWhile isWsJs = trimJs l ++ w.reverse := by
    have := congrArg List.reverse hw
    rw [List.reverse_append, List.reverse_reverse] at this
    exact this.symm
  rw [← this, hu]

/-- C4: the row-cap clamp of both observed revisions sends a NaN parse, zero,
or a negative value to the default 100, clamps values above the respective
documented ceiling to that ceiling, and passes values between 1 and the
ceiling through unchanged. -/
theorem clampRows_spec :
    (clampRows none = 100 ∧ clampRows10k none = 100)
    ∧ (∀ r : ℚ, r ≤ 0 → clampRows (some r) = 100 ∧ clampRows10k (some r) = 100)
    ∧ (∀ r : ℚ, 1000 < r → clampRows (some r) = 1000)
    ∧ (∀ r : ℚ, 10000 < r → clampRows10k (some r) = 10000)
    ∧ (∀ r : ℚ, 1 ≤ r → r ≤ 1000 → clampRows (some r) = r)
    ∧ (∀ r : ℚ, 1 ≤ r → r ≤ 10000 → clampRows10k (some r) = r) := by
  refine ⟨⟨rfl, rfl⟩, fun r h => ?_, fun r h => ?_, fun r h => ?_,
    fun r h1 h2 => ?_, fun r h1 h2 => ?_⟩ <;>
    simp only [clampRows, clampRows10k, clampRowsNum]
  · rw [if_pos h, if_pos h]; exact ⟨rfl, rfl⟩
  · rw [if_neg (by linarith), min_eq_left (le_of_lt h)]
  · rw [if_neg (by linarith), min_eq_left (le_of_lt h)]
  · rw [if_neg (by linarith), min_eq_right h2]
  · rw [if_neg (by linarith), min_eq_right h2]

/-- Witness for C4 at a negative, an above-ceiling and an in-range cap. -/
theorem clampRows_spec_witness :
    clampRows (some (-3)) = 100 ∧ clampRows (some 2500) = 1000
    ∧ clampRows10k (some 2500) = 2500 :=
  ⟨(clampRows_spec.2.1 (-3) (by norm_num)).1,
   clampRows_spec.2.2.1 2500 (by norm_num),
   clampRows_spec.2.2.2.2.2 2500 (by norm_num) (by norm_num)⟩

/-- C5: csvEscape stringifies null or undefined to the empty field, a date to
its ISO-8601 text, a structured value to its JSON text and any other scalar
to its natural string form; a stringified field containing a double quote,
comma or line break is wrapped in double quotes with embedded quotes
doubled, and every other field is emitted unquoted (the two spec examples
included). -/
theorem csvEscape_spec :
    (stringifyCell .vnull = []
      ∧ (∀ iso, stringifyCell (.vdate iso) = iso)
      ∧ (∀ json, stringifyCell (.vobj json) = json)
      ∧ (∀ s, stringifyCell (.vscalar s) = s))
    ∧ (∀ v, needsCsvQuote (stringifyCell v) = true →
        csvEscape v = '"' :: (doubleQuotes (stringifyCell v) ++ ['"']))
    ∧ (∀ v, needsCsvQuote (stringifyCell v) = false → csvEscape v = stringifyCell v)
    ∧ csvEscape (.vscalar "x,y".toList) = "\"x,y\"".toList
    ∧ csvEscape (.vscalar "he said \"hi\"".toList) = "\"he said \"\"hi\"\"\"".toList := by
  refine ⟨⟨rfl, fun _ => rfl, fun _ => rfl, fun _ => rfl⟩, ?_, ?_, by decide, by decide⟩
  · intro v h
    unfold csvEscape
    rw [if_pos h]
  · intro v h
    unfold csvEscape
    rw [if_neg (by simp [h])]

/-- Witness for C5 at a field with a line break (quoted) and a date field
without special characters (unquoted). -/
theorem csvEscape_spec_witness :
    csvEscape (.vscalar "a\nb".toList) =
      '"' :: (doubleQuotes (stringifyCell (.vscalar "a\nb".toList)) ++ ['"'])
    ∧ csvEscape (.vdate "2020-01-01T00:00:00.000Z".toList) =
        stringifyCell (.vdate "2020-01-01T00:00:00.000Z".toList) :=
  ⟨csvEscape_spec.2.1 (.vscalar "a\nb".toList) (by decide),
   csvEscape_spec.2.2.1 (.vdate "2020-01-01T00:00:00.000Z".toList) (by decide)⟩

/-- C6: the CSV payload of no rows is the empty string; a non-empty row set
yields the header over the first-seen union of keys followed by one line per
row in input order, newline-joined with a trailing terminator; a column
missing from a row encodes as the empty field; and the spec example
evaluates as stated. -/
theorem buildCsvPayload_spec :
    buildCsvPayload [] = []
    ∧ (∀ rows : List Row, rows ≠ [] →
        buildCsvPayload rows =
          List.intercalate ['\n']
            (headerLine (collectColumns rows) ::
              rows.map (csvLine (collectColumns rows))) ++ ['\n'])
    ∧ (∀ (row : Row) (key : List Char),
        rowLookup row key = none → csvEscape (rowGet row key) = [])
    ∧ buildCsvPayload
        [[("a".toList, .vscalar "1".toList), ("b".toList, .vscalar "2".toList)],
         [("a".toList, .vscalar "3".toList)]] = "a,b\n1,2\n3,\n".toList := by
  refine ⟨rfl, ?_, ?_, by decide⟩
  · intro rows h
    unfold buildCsvPayload
    rw [if_neg h]
  · intro row key h
    simp only [rowGet, h, Option.getD_none]
    decide

/-- Witness for C6 at a one-row payload and a missing-key access. -/
theorem buildCsvPayload_spec_witness :
    buildCsvPayload [[("a".toList, .vscalar "1".toList)]] =
      List.intercalate ['\n']
        (headerLine (collectColumns [[("a".toList, .vscalar "1".toList)]]) ::
          [[("a".toList, CellValue.vscalar "1".toList)]].map
            (csvLine (collectColumns [[("a".toList, .vscalar "1".toList)]]))) ++ ['\n']
    ∧ csvEscape (rowGet [] "missing".toList) = [] :=
  ⟨buildCsvPayload_spec.2.1 [[("a".toList, .vscalar "1".toList)]] (by decide),
   buildCsvPayload_spec.2.2.1 [] "missing".toList (by decide)⟩

/-- C7: when persistence is enabled and persistResults rejects, the
orchestrator logs exactly one warning, leaves both path outputs empty, does
not mark the run failed, and the summary was still emitted. -/
theorem persistencePhase_failure (e : List Char) :
    persistencePhase true (.error e) =
      { persistWarnings := 1, resultFileOutput := [], resultMetadataFileOutput := [],
        summaryEmitted := true, runFailed := false } := rfl

/-- C1 counterexample: the two query ids of the spec example share their last
dash-delimited segment, so the derived CSV paths coincide although the query
ids differ. -/
theorem buildPersistedPaths_collision :
    "abc-123".toList ≠ "xyz-123".toList
    ∧ buildPersistedPaths "abc-123".toList "snowflake-result.csv".toList "/tmp/run".toList =
        buildPersistedPaths "xyz-123".toList "snowflake-result.csv".toList "/tmp/run".toList := by
  decide

/-- C1 (amended): two invocations whose query ids yield distinct sanitized id
tokens (the sanitized last dash-delimited segment, with the literal result as
fallback) and share the base filename and directory derive distinct CSV and
metadata paths; and invocations with the same query id, filename and
directory derive identical paths. -/
theorem buildPersistedPaths_distinct_tokens (q1 q2 f d : List Char) :
    (sanitizeForFilename (idTokenOf q1) ≠ sanitizeForFilename (idTokenOf q2) →
      (buildPersistedPaths q1 f d).csvPath ≠ (buildPersistedPaths q2 f d).csvPath
      ∧ (buildPersistedPaths q1 f d).metadataPath ≠ (buildPersistedPaths q2 f d).metadataPath)
    ∧ (q1 = q2 → buildPersistedPaths q1 f d = buildPersistedPaths q2 f d) := by
  constructor
  · intro h
    constructor <;>
      · intro heq
        apply h
        simp only [buildPersistedPaths, pathJoin] at heq
        have h1 := List.cons_injective (List.append_cancel_left heq)
        have h2 := List.cons_injective (List.append_cancel_left h1)
        exact List.append_cancel_right h2
  · intro he
    rw [he]

/-- Witness for C1 (amended) at two query ids with distinct last segments. -/
theorem buildPersistedPaths_distinct_tokens_witness :
    (buildPersistedPaths "run-124".toList "r.csv".toList "/o".toList).csvPath ≠
      (buildPersistedPaths "run-125".toList "r.csv".toList "/o".toList).csvPath
    ∧ buildPersistedPaths "run-124".toList "r.csv".toList "/o".toList =
        buildPersistedPaths "run-124".toList "r.csv".toList "/o".toList :=
  ⟨((buildPersistedPaths_distinct_tokens "run-124".toList "run-125".toList
      "r.csv".toList "/o".toList).1 (by decide)).1,
   (buildPersistedPaths_distinct_tokens "run-124".toList "run-124".toList
      "r.csv".toList "/o".toList).2 rfl⟩

/-! Lemmas about the two-character marker test. -/

theorem cp_tail (a b c : Char) (l : List Char)
    (h : containsPair a b (c :: l) = false) : containsPair a b l = false := by
  cases l with
  | nil => rfl
  | cons d r =>
    simp only [containsPair, Bool.or_eq_false_iff] at h
    exact h.2

theorem cp_drop_left (a b : Char) (x y : List Char)
    (h : containsPair a b (x ++ y) = false) : containsPair a b y = false := by
  induction x with
  | nil => simpa using h
  | cons c xs ih => exact ih (cp_tail a b c (xs ++ y) (by simpa using h))

theorem cp_left_part (a b : Char) (x y : List Char)
    (h : containsPair a b (x ++ y) = false) : containsPair a b x = false := by
  induction x with
  | nil => rfl
  | cons c xs ih =>
    cases xs with
    | nil => rfl
    | cons d r =>
      simp only [List.cons_append] at h
      simp only [containsPair, Bool.or_eq_false_iff] at h ⊢
      refine ⟨h.1, ?_⟩
      have := ih (by simpa [List.cons_append] using h.2)
      exact this

theorem cp_infix (a b : Char) (s u m v : List Char)
    (hs : containsPair a b s = false) (h : u ++ (m ++ v) = s) :
    containsPair a b m = false := by
  rw [← h] at hs
  exact cp_left_part a b m v (cp_drop_left a b u (m ++ v) hs)

theorem cp_of_no_b (a b : Char) : ∀ y : List Char, (∀ c ∈ y, c ≠ b) →
    containsPair a b y = false := by
  intro y
  induction y with
  | nil => intro _; rfl
  | cons c z ih =>
    intro h
    cases z with
    | nil => rfl
    | cons d r =>
      have hd : (d == b) = false := by
        simp [h d (by simp)]
      have hz : containsPair a b (d :: r) = false :=
        ih (fun c' hc' => h c' (List.mem_cons_of_mem c hc'))
      simp [containsPair, hd, hz]

theorem cp_append_no_b (a b : Char) (x y : List Char)
    (hx : containsPair a b x = false) (hy : ∀ c ∈ y, c ≠ b) :
    containsPair a b (x ++ y) = false := by
  induction x with
  | nil => simpa using cp_of_no_b a b y hy
  | cons c xs ih =>
    have hxs : containsPair a b xs = false := cp_tail a b c xs hx
    have ihr : containsPair a b (xs ++ y) = false := ih hxs
    cases xs with
    | nil =>
      cases y with
      | nil => rfl
      | cons e z =>
        have he : (e == b) = false := by simp [hy e (by simp)]
        simpa [containsPair, he] using ihr
    | cons d xs' =>
      have hpair : (c == a && d == b) = false := by
        simp only [containsPair, Bool.or_eq_false_iff] at hx
        exact hx.1
      simp only [List.cons_append] at ihr ⊢
      simp [containsPair, hpair, ihr]

theorem cp_append_headsafe (a b : Char) (x y : List Char)
    (hx : containsPair a b x = false) (hy : containsPair a b y = false)
    (hh : ∀ c t, y = c :: t → c ≠ b) :
    containsPair a b (x ++ y) = false := by
  induction x with
  | nil => simpa using hy
  | cons c xs ih =>
    have hxs : containsPair a b xs = false := cp_tail a b c xs hx
    have ihr : containsPair a b (xs ++ y) = false := ih hxs
    cases xs with
    | nil =>
      cases y with
      | nil => rfl
      | cons e z =>
        have he : (e == b) = false := by simp [hh e z rfl]
        simpa [containsPair, he] using ihr
    | cons d xs' =>
      have hpair : (c == a && d == b) = false := by
        simp only [containsPair, Bool.or_eq_false_iff] at hx
        exact hx.1
      simp only [List.cons_append] at ihr ⊢
      simp [containsPair, hpair, ihr]

/-! Lemmas about decimal digit rendering. -/

theorem digitChar_digit (n : Nat) : isDigitJs (digitChar n) = true := by
  unfold digitChar
  split_ifs <;> decide

theorem natDigitsAux_spec :
    ∀ (fuel n : Nat) (acc : List Char), n < fuel → (∀ c ∈ acc, isDigitJs c = true) →
      ∃ dg r, natDigitsAux fuel n acc = dg :: r ∧ ∀ c ∈ dg :: r, isDigitJs c = true := by
  intro fuel
  induction fuel with
  | zero => intro n acc h _; omega
  | succ f ih =>
    intro n acc hn hacc
    rw [natDigitsAux]
    by_cases h10 : n < 10
    · rw [if_pos h10]
      refine ⟨digitChar n, acc, rfl, ?_⟩
      intro c hc
      rcases List.mem_cons.mp hc with rfl | hc
      · exact digitChar_digit n
      · exact hacc c hc
    · rw [if_neg h10]
      apply ih
      · have h0 : 0 < n := by omega
        have := Nat.div_lt_self h0 (by norm_num : 1 < 10)
        omega
      · intro c hc
        rcases List.mem_cons.mp hc with rfl | hc
        · exact digitChar_digit _
        · exact hacc c hc

theorem natDigits_spec (n : Nat) :
    ∃ dg r, natDigits n = dg :: r ∧ ∀ c ∈ dg :: r, isDigitJs c = true :=
  natDigitsAux_spec (n + 1) n [] (by omega) (by intro c hc; simp at hc)

theorem digit_not_ws (c : Char) (h : isDigitJs c = true) : isWsJs c = false := by
  simp only [isDigitJs, Bool.and_eq_true, decide_eq_true_eq] at h
  simp only [isWsJs, Bool.or_eq_false_iff, decide_eq_false_iff_not]
  omega

theorem digit_ne_of (c d : Char) (h : isDigitJs c = true) (hd : isDigitJs d = false) :
    c ≠ d := by
  intro he
  rw [he, hd] at h
  cases h

/-! Identity of comment stripping on marker-free text. -/

theorem slc_id : ∀ (fuel : Nat) (l : List Char), l.length ≤ fuel →
    containsPair '-' '-' l = false → slcFuel fuel false l = l := by
  intro fuel
  induction fuel with
  | zero =>
    intro l hl _
    have : l = [] := List.length_eq_zero.mp (Nat.le_zero.mp hl)
    rw [this]
    rfl
  | succ f ih =>
    intro l hl hcp
    cases l with
    | nil => rfl
    | cons c rest =>
      cases rest with
      | nil => rfl
      | cons d r =>
        have hpair : ¬(c = '-' ∧ d = '-') := by
          simp only [containsPair, Bool.or_eq_false_iff, Bool.and_eq_false_iff,
            beq_eq_false_iff_ne, ne_eq] at hcp
          rcases hcp.1 with h | h
          · exact fun hc => h hc.1
          · exact fun hc => h hc.2
        have htail : containsPair '-' '-' (d :: r) = false := by
          simp only [containsPair, Bool.or_eq_false_iff] at hcp
          exact hcp.2
        have hlen : (d :: r).length ≤ f := by
          simp only [List.length_cons] at hl ⊢
          omega
        simp only [slcFuel]
        rw [if_neg (by simpa using hpair)]
        rw [ih (d :: r) hlen htail]

theorem sbc_id : ∀ (fuel : Nat) (l : List Char), l.length ≤ fuel →
    containsPair '/' '*' l = false → sbcFuel fuel l = l := by
  intro fuel
  induction fuel with
  | zero =>
    intro l hl _
    have : l = [] := List.length_eq_zero.mp (Nat.le_zero.mp hl)
    rw [this]
    rfl
  | succ f ih =>
    intro l hl hcp
    cases l with
    | nil => rfl
    | cons c rest =>
      cases rest with
      | nil => rfl
      | cons d r =>
        have hpair : ¬(c = '/' ∧ d = '*') := by
          simp only [containsPair, Bool.or_eq_false_iff, Bool.and_eq_false_iff,
            beq_eq_false_iff_ne, ne_eq] at hcp
          rcases hcp.1 with h | h
          · exact fun hc => h hc.1
          · exact fun hc => h hc.2
        have htail : containsPair '/' '*' (d :: r) = false := by
          simp only [containsPair, Bool.or_eq_false_iff] at hcp
          exact hcp.2
        have hlen : (d :: r).length ≤ f := by
          simp only [List.length_cons] at hl ⊢
          omega
        simp only [sbcFuel]
        rw [if_neg (by simpa using hpair)]
        rw [ih (d :: r) hlen htail]

theorem stripSqlComments_id (l : List Char)
    (h1 : containsPair '-' '-' l = false) (h2 : containsPair '/' '*' l = false) :
    stripSqlComments l = l := by
  unfold stripSqlComments stripLineComments stripBlockComments
  rw [slc_id l.length l le_rfl h1]
  exact sbc_id l.length l le_rfl h2

/-! Occurrence of an appended limit clause in the limit-detection scan. -/

theorem hasLimitAux_marker (dg : Char) (hdg : isDigitJs dg = true) :
    ∀ (x r : List Char) (b : Bool),
      hasLimitAux b (x ++ (' ' :: 'l' :: 'i' :: 'm' :: 'i' :: 't' :: ' ' :: dg :: r)) = true := by
  intro x
  induction x with
  | nil =>
    intro r b
    have e1 : startsWithLimitCI (' ' :: 'l' :: 'i' :: 'm' :: 'i' :: 't' :: ' ' :: dg :: r) =
        none := rfl
    have e2 : startsWithLimitCI ('l' :: 'i' :: 'm' :: 'i' :: 't' :: ' ' :: dg :: r) =
        some (' ' :: dg :: r) := rfl
    have e3 : wsThenDigit (' ' :: dg :: r) = true := by
      have hdt : wsDigitTail (dg :: r) = true := by
        rw [wsDigitTail, if_pos hdg]
      rw [wsThenDigit, hdt]
      rfl
    rw [List.nil_append]
    rw [hasLimitAux, e1]
    rw [hasLimitAux, e2]
    have e4 : isWordJs ' ' = false := rfl
    simp [e3, e4]
  | cons c xs ih =>
    intro r b
    rw [List.cons_append, hasLimitAux]
    rw [ih r (isWordJs c)]
    simp

/-! Decomposition of semicolon stripping. -/

theorem revStripSemis_decomp : ∀ r : List Char,
    ∃ u, (∀ c ∈ u, isWsJs c = true ∨ c = ';') ∧ u ++ (revStripSemis r).1 = r := by
  intro r
  induction r with
  | nil => exact ⟨[], by simp, rfl⟩
  | cons c rest ih =>
    by_cases hws : isWsJs c = true
    · obtain ⟨u, hu, he⟩ := ih
      refine ⟨c :: u, ?_, ?_⟩
      · intro c' hc'
        rcases List.mem_cons.mp hc' with rfl | h
        · exact Or.inl hws
        · exact hu c' h
      · rw [revStripSemis, if_pos hws, List.cons_append, he]
    · by_cases hsemi : c = ';'
      · obtain ⟨u, hu, he⟩ := ih
        refine ⟨c :: u, ?_, ?_⟩
        · intro c' hc'
          rcases List.mem_cons.mp hc' with rfl | h
          · exact Or.inr hsemi
          · exact hu c' h
        · rw [revStripSemis, if_neg hws, if_pos hsemi, List.cons_append, he]
      · refine ⟨[], by simp, ?_⟩
        rw [revStripSemis, if_neg hws, if_neg hsemi, List.nil_append]

theorem stripTrailingSemicolons_decomp (l : List Char) :
    ∃ v, (∀ c ∈ v, isWsJs c = true ∨ c = ';') ∧ (stripTrailingSemicolons l).1 ++ v = l := by
  obtain ⟨u, hu, he⟩ := revStripSemis_decomp l.reverse
  refine ⟨u.reverse, ?_, ?_⟩
  · intro c hc
    exact hu c (List.mem_reverse.mp hc)
  · have h2 := congrArg List.reverse he
    rw [List.reverse_append, List.reverse_reverse] at h2
    simpa [stripTrailingSemicolons] using h2

/-! Head facts about statements entering the applied branches. -/

theorem limitableTokens_head (tok : List Char) (h : tok ∈ limitableTokens) :
    tok.head? = some 'S' ∨ tok.head? = some 'W' ∨ tok.head? = some 'D' := by
  simp only [limitableTokens, List.mem_cons, List.not_mem_nil, or_false] at h
  rcases h with rfl | rfl | rfl | rfl | rfl <;> decide

theorem allowlist_head (t : List Char) (h : firstTokenUpper t ∈ limitableTokens) :
    ∃ c r, t = c :: r ∧ isWsJs c = false ∧ c ≠ ';' := by
  cases t with
  | nil => exact absurd h (by decide)
  | cons c r =>
    by_cases hp : ((!isWsJs c) && !(c == '(')) = true
    · refine ⟨c, r, rfl, ?_, ?_⟩
      · have := ((Bool.and_eq_true _ _).mp hp).1
        simpa using this
      · intro hc
        subst hc
        have hft : firstTokenUpper (';' :: r) =
            ';' :: ((r.takeWhile fun c => (!isWsJs c) && !(c == '(')).map Char.toUpper) := rfl
        rw [hft] at h
        rcases limitableTokens_head _ h with hh | hh | hh <;>
          · rw [List.head?_cons] at hh
            exact absurd (Option.some.inj hh) (by decide)
    · have hft : firstTokenUpper (c :: r) = [] := by
        unfold firstTokenUpper
        rw [List.takeWhile_cons, if_neg hp]
        rfl
      rw [hft] at h
      exact absurd h (by decide)

theorem wrap_head (t : List Char)
    (h : ("SELECT".toList.isPrefixOf (firstTokenUpper t) || startsWithParen t) = true) :
    ∃ c r, t = c :: r ∧ isWsJs c = false ∧ c ≠ '-' ∧ c ≠ '*' := by
  rcases (Bool.or_eq_true _ _).mp h with hpre | hpar
  · cases t with
    | nil => exact absurd hpre (by decide)
    | cons c r =>
      by_cases hp : ((!isWsJs c) && !(c == '(')) = true
      · have hft : firstTokenUpper (c :: r) =
            c.toUpper :: ((r.takeWhile fun c => (!isWsJs c) && !(c == '(')).map Char.toUpper) := by
          unfold firstTokenUpper
          rw [List.takeWhile_cons, if_pos hp]
          rfl
        rw [hft] at hpre
        have hsel : "SELECT".toList = 'S' :: "ELECT".toList := rfl
        rw [hsel, List.isPrefixOf] at hpre
        have hS : c.toUpper = 'S' := by
          have := ((Bool.and_eq_true _ _).mp hpre).1
          exact (beq_iff_eq.mp this).symm
        refine ⟨c, r, rfl, by simpa using ((Bool.and_eq_true _ _).mp hp).1, ?_, ?_⟩
        · intro hc
          rw [hc] at hS
          exact absurd hS (by decide)
        · intro hc
          rw [hc] at hS
          exact absurd hS (by decide)
      · have hft : firstTokenUpper (c :: r) = [] := by
          unfold firstTokenUpper
          rw [List.takeWhile_cons, if_neg hp]
          rfl
        rw [hft] at hpre
        exact absurd hpre (by decide)
  · cases t with
    | nil => exact absurd hpar (by decide)
    | cons c r =>
      have hc : c = '(' := by
        rw [startsWithParen] at hpar
        exact beq_iff_eq.mp hpar
      subst hc
      exact ⟨'(', r, rfl, by decide, by decide, by decide⟩

/-- Core reapplication fact: a non-empty statement with no surrounding
whitespace, no comment markers, and a detectable limit clause is returned
unchanged by the limiter with the existing-limit reason. -/
theorem enforce_on_limited (o : List Char) (m : Nat)
    (hne : o ≠ [])
    (hhead : ∀ c t, o = c :: t → isWsJs c = false)
    (hlast : ∀ c t, o.reverse = c :: t → isWsJs c = false)
    (hcp1 : containsPair '-' '-' o = false) (hcp2 : containsPair '/' '*' o = false)
    (hlim : hasLimitNum o = true) :
    enforceSqlLimit o m =
      { sql := o, applied := false, reason := some "existing-limit-detected".toList } := by
  have htr : trimJs o = o := trimJs_eq_self o hhead hlast
  unfold enforceSqlLimit
  rw [htr, if_neg hne, if_pos (by rw [stripSqlComments_id o hcp1 hcp2]; exact hlim)]

/-- Reapplication after the allow-list branch: the rewritten statement of the
semicolon-aware limit append is detected as already limited and returned
unchanged. -/
theorem enforce_branch1 (t : List Char) (m : Nat)
    (hdash : containsPair '-' '-' t = false)
    (hblock : containsPair '/' '*' t = false)
    (htok : firstTokenUpper t ∈ limitableTokens) :
    enforceSqlLimit
      ((stripTrailingSemicolons t).1 ++ [' ', 'l', 'i', 'm', 'i', 't', ' '] ++ natDigits m ++
        (if (stripTrailingSemicolons t).2 then [';'] else [])) m =
      { sql := (stripTrailingSemicolons t).1 ++ [' ', 'l', 'i', 'm', 'i', 't', ' '] ++
          natDigits m ++ (if (stripTrailingSemicolons t).2 then [';'] else []),
        applied := false, reason := some "existing-limit-detected".toList } := by
  obtain ⟨dg, dr, hnd, hdall⟩ := natDigits_spec m
  have hdg : isDigitJs dg = true := hdall dg (List.mem_cons_self dg dr)
  obtain ⟨v, hvmem, hvdec⟩ := stripTrailingSemicolons_decomp t
  obtain ⟨c, r, hcr, hcw, hcsemi⟩ := allowlist_head t htok
  obtain ⟨bt, hbody⟩ : ∃ bt, (stripTrailingSemicolons t).1 = c :: bt := by
    cases hb1 : (stripTrailingSemicolons t).1 with
    | nil =>
      exfalso
      rw [hb1, List.nil_append] at hvdec
      have hc : c ∈ v := by
        rw [hvdec, hcr]
        exact List.mem_cons_self c r
      rcases hvmem c hc with hws | hsemi
      · rw [hws] at hcw
        exact Bool.noConfusion hcw
      · exact hcsemi hsemi
    | cons b0 bt =>
      refine ⟨bt, ?_⟩
      rw [hb1, hcr, List.cons_append] at hvdec
      injection hvdec with hb0 _
      rw [hb0]
  set o : List Char :=
    (stripTrailingSemicolons t).1 ++ [' ', 'l', 'i', 'm', 'i', 't', ' '] ++ natDigits m ++
      (if (stripTrailingSemicolons t).2 then [';'] else []) with ho
  have hbodycp1 : containsPair '-' '-' (stripTrailingSemicolons t).1 = false := by
    have h := hdash
    rw [← hvdec] at h
    exact cp_left_part _ _ _ _ h
  have hbodycp2 : containsPair '/' '*' (stripTrailingSemicolons t).1 = false := by
    have h := hblock
    rw [← hvdec] at h
    exact cp_left_part _ _ _ _ h
  have hOassoc : o = (stripTrailingSemicolons t).1 ++
      ([' ', 'l', 'i', 'm', 'i', 't', ' '] ++ (natDigits m ++
        (if (stripTrailingSemicolons t).2 then [';'] else []))) := by
    rw [ho]
    simp [List.append_assoc]
  have htailok : ∀ bad : Char, isDigitJs bad = false → bad ≠ ';' → bad ∉ [' ', 'l', 'i', 'm', 'i', 't', ' '] →
      ∀ ch ∈ [' ', 'l', 'i', 'm', 'i', 't', ' '] ++ (natDigits m ++
        (if (stripTrailingSemicolons t).2 then [';'] else [])), ch ≠ bad := by
    intro bad hbdg hbsemi hbA ch hch
    rcases List.mem_append.mp hch with hA | hDS
    · intro he
      rw [he] at hA
      exact hbA hA
    · rcases List.mem_append.mp hDS with hD | hS
      · rw [hnd] at hD
        exact digit_ne_of ch bad (hdall ch hD) hbdg
      · intro he
        apply hbsemi
        rw [← he]
        revert hS
        split
        · intro hS
          simpa using hS
        · intro hS
          simp at hS
  have hne : o ≠ [] := by
    rw [ho, hbody]
    simp
  have hhead : ∀ c' t', o = c' :: t' → isWsJs c' = false := by
    intro c' t' he
    rw [ho, hbody] at he
    simp only [List.cons_append] at he
    injection he with h1 _
    rw [← h1]
    exact hcw
  have hlast : ∀ c' t', o.reverse = c' :: t' → isWsJs c' = false := by
    intro c' t' he
    cases hsem : (stripTrailingSemicolons t).2 with
    | true =>
      have hS : (if (stripTrailingSemicolons t).2 then [';'] else ([] : List Char)) = [';'] := by
        rw [hsem]
        rfl
      rw [ho, hS, List.reverse_append] at he
      simp only [List.reverse_cons, List.reverse_nil, List.nil_append, List.cons_append] at he
      injection he with h1 _
      rw [← h1]
      decide
    | false =>
      have hS : (if (stripTrailingSemicolons t).2 then [';'] else ([] : List Char)) = [] := by
        rw [hsem]
        rfl
      rw [ho, hS, List.append_nil, List.reverse_append] at he
      cases hDrev : (natDigits m).reverse with
      | nil =>
        exfalso
        have : natDigits m = [] := by
          have := congrArg List.reverse hDrev
          simpa using this
        rw [hnd] at this
        exact List.noConfusion this
      | cons e es =>
        rw [hDrev, List.cons_append] at he
        injection he with h1 _
        rw [← h1]
        have hmem : e ∈ natDigits m := by
          rw [← List.mem_reverse, hDrev]
          exact List.mem_cons_self e es
        rw [hnd] at hmem
        exact digit_not_ws e (hdall e hmem)
  have hcpO1 : containsPair '-' '-' o = false := by
    rw [hOassoc]
    exact cp_append_no_b '-' '-' _ _ hbodycp1
      (htailok '-' (by decide) (by decide) (by decide))
  have hcpO2 : containsPair '/' '*' o = false := by
    rw [hOassoc]
    exact cp_append_no_b '/' '*' _ _ hbodycp2
      (htailok '*' (by decide) (by decide) (by decide))
  have hform : o = (stripTrailingSemicolons t).1 ++
      (' ' :: 'l' :: 'i' :: 'm' :: 'i' :: 't' :: ' ' :: dg ::
        (dr ++ (if (stripTrailingSemicolons t).2 then [';'] else []))) := by
    rw [ho, hnd]
    simp [List.append_assoc]
  have hlim : hasLimitNum o = true := by
    rw [hasLimitNum, hform]
    exact hasLimitAux_marker dg hdg _ _ false
  exact enforce_on_limited o m hne hhead hlast hcpO1 hcpO2 hlim

/-- Reapplication after the subquery-wrap branch: the wrapped statement is
detected as already limited and returned unchanged. -/
theorem enforce_branch2 (t : List Char) (m : Nat)
    (hdash : containsPair '-' '-' t = false)
    (hblock : containsPair '/' '*' t = false)
    (hcond : ("SELECT".toList.isPrefixOf (firstTokenUpper t) || startsWithParen t) = true) :
    enforceSqlLimit
      (['s', 'e', 'l', 'e', 'c', 't', ' ', '*', ' ', 'f', 'r', 'o', 'm', ' ', '(', '\n'] ++ t ++
        ['\n', ')', ' ', 'l', 'i', 'm', 'i', 't', ' '] ++ natDigits m) m =
      { sql := ['s', 'e', 'l', 'e', 'c', 't', ' ', '*', ' ', 'f', 'r', 'o', 'm', ' ', '(', '\n'] ++
          t ++ ['\n', ')', ' ', 'l', 'i', 'm', 'i', 't', ' '] ++ natDigits m,
        applied := false, reason := some "existing-limit-detected".toList } := by
  obtain ⟨dg, dr, hnd, hdall⟩ := natDigits_spec m
  have hdg : isDigitJs dg = true := hdall dg (List.mem_cons_self dg dr)
  obtain ⟨c, r, hcr, hcw, hcd, hcs⟩ := wrap_head t hcond
  set o : List Char :=
    ['s', 'e', 'l', 'e', 'c', 't', ' ', '*', ' ', 'f', 'r', 'o', 'm', ' ', '(', '\n'] ++ t ++
      ['\n', ')', ' ', 'l', 'i', 'm', 'i', 't', ' '] ++ natDigits m with ho
  have hOassoc : o = ['s', 'e', 'l', 'e', 'c', 't', ' ', '*', ' ', 'f', 'r', 'o', 'm', ' ', '(', '\n'] ++
      (t ++ (['\n', ')', ' ', 'l', 'i', 'm', 'i', 't', ' '] ++ natDigits m)) := by
    rw [ho]
    simp [List.append_assoc]
  have hsufok : ∀ bad : Char, isDigitJs bad = false →
      bad ∉ ['\n', ')', ' ', 'l', 'i', 'm', 'i', 't', ' '] →
      ∀ ch ∈ ['\n', ')', ' ', 'l', 'i', 'm', 'i', 't', ' '] ++ natDigits m, ch ≠ bad := by
    intro bad hbdg hbS ch hch
    rcases List.mem_append.mp hch with hS | hD
    · intro he
      rw [he] at hS
      exact hbS hS
    · rw [hnd] at hD
      exact digit_ne_of ch bad (hdall ch hD) hbdg
  have hmid1 : containsPair '-' '-' (t ++ (['\n', ')', ' ', 'l', 'i', 'm', 'i', 't', ' '] ++ natDigits m)) = false :=
    cp_append_no_b '-' '-' _ _ hdash (hsufok '-' (by decide) (by decide))
  have hmid2 : containsPair '/' '*' (t ++ (['\n', ')', ' ', 'l', 'i', 'm', 'i', 't', ' '] ++ natDigits m)) = false :=
    cp_append_no_b '/' '*' _ _ hblock (hsufok '*' (by decide) (by decide))
  have hne : o ≠ [] := by
    rw [ho]
    simp
  have hhead : ∀ c' t', o = c' :: t' → isWsJs c' = false := by
    intro c' t' he
    rw [ho] at he
    simp only [List.cons_append] at he
    injection he with h1 _
    rw [← h1]
    decide
  have hlast : ∀ c' t', o.reverse = c' :: t' → isWsJs c' = false := by
    intro c' t' he
    rw [ho, List.reverse_append] at he
    cases hDrev : (natDigits m).reverse with
    | nil =>
      exfalso
      have : natDigits m = [] := by
        have := congrArg List.reverse hDrev
        simpa using this
      rw [hnd] at this
      exact List.noConfusion this
    | cons e es =>
      rw [hDrev, List.cons_append] at he
      injection he with h1 _
      rw [← h1]
      have hmem : e ∈ natDigits m := by
        rw [← List.mem_reverse, hDrev]
        exact List.mem_cons_self e es
      rw [hnd] at hmem
      exact digit_not_ws e (hdall e hmem)
  have hcpO1 : containsPair '-' '-' o = false := by
    rw [hOassoc]
    apply cp_append_headsafe '-' '-' _ _ (by decide) hmid1
    intro c0 t0 heq
    rw [hcr, List.cons_append] at heq
    injection heq with h1 _
    rw [← h1]
    exact hcd
  have hcpO2 : containsPair '/' '*' o = false := by
    rw [hOassoc]
    apply cp_append_headsafe '/' '*' _ _ (by decide) hmid2
    intro c0 t0 heq
    rw [hcr, List.cons_append] at heq
    injection heq with h1 _
    rw [← h1]
    exact hcs
  have hform : o = (['s', 'e', 'l', 'e', 'c', 't', ' ', '*', ' ', 'f', 'r', 'o', 'm', ' ', '(', '\n'] ++
      t ++ ['\n', ')']) ++ (' ' :: 'l' :: 'i' :: 'm' :: 'i' :: 't' :: ' ' :: dg :: dr) := by
    rw [ho, hnd]
    simp [List.append_assoc]
  have hlim : hasLimitNum o = true := by
    rw [hasLimitNum, hform]
    exact hasLimitAux_marker dg hdg _ dr false
  exact enforce_on_limited o m hne hhead hlast hcpO1 hcpO2 hlim

/-- C10: for every SQL text containing no comment markers and every positive
row cap on which the limiter applies a limit, re-applying the limiter to the
rewritten sql with the same cap detects the injected limit clause and returns
applied false with reason existing-limit-detected and the sql unchanged, so a
limit clause is never injected twice. -/
theorem enforceSqlLimit_no_reinjection (s : List Char) (m : Nat)
    (hm : 0 < m)
    (hdash : containsPair '-' '-' s = false)
    (hblock : containsPair '/' '*' s = false)
    (ha : (enforceSqlLimit s m).applied = true) :
    enforceSqlLimit (enforceSqlLimit s m).sql m =
      { sql := (enforceSqlLimit s m).sql, applied := false,
        reason := some "existing-limit-detected".toList } := by
  obtain ⟨u0, v0, hsdec⟩ := trimJs_decomp s
  have hdash' : containsPair '-' '-' (trimJs s) = false :=
    cp_infix '-' '-' s u0 (trimJs s) v0 hdash hsdec
  have hblock' : containsPair '/' '*' (trimJs s) = false :=
    cp_infix '/' '*' s u0 (trimJs s) v0 hblock hsdec
  by_cases h0 : trimJs s = []
  · exfalso
    unfold enforceSqlLimit at ha
    rw [if_pos h0] at ha
    exact Bool.noConfusion ha
  · by_cases h1 : hasLimitNum (stripSqlComments (trimJs s)) = true
    · exfalso
      unfold enforceSqlLimit at ha
      rw [if_neg h0, if_pos h1] at ha
      exact Bool.noConfusion ha
    · by_cases h2 : firstTokenUpper (trimJs s) ∈ limitableTokens
      · have hsql : (enforceSqlLimit s m).sql =
            (stripTrailingSemicolons (trimJs s)).1 ++ [' ', 'l', 'i', 'm', 'i', 't', ' '] ++
              natDigits m ++
              (if (stripTrailingSemicolons (trimJs s)).2 then [';'] else []) := by
          unfold enforceSqlLimit
          rw [if_neg h0, if_neg h1, if_pos h2]
        rw [hsql]
        exact enforce_branch1 (trimJs s) m hdash' hblock' h2
      · by_cases h3 : ("SELECT".toList.isPrefixOf (firstTokenUpper (trimJs s)) ||
            startsWithParen (trimJs s)) = true
        · have hsql : (enforceSqlLimit s m).sql =
              ['s', 'e', 'l', 'e', 'c', 't', ' ', '*', ' ', 'f', 'r', 'o', 'm', ' ', '(', '\n'] ++
                trimJs s ++ ['\n', ')', ' ', 'l', 'i', 'm', 'i', 't', ' '] ++ natDigits m := by
            unfold enforceSqlLimit
            rw [if_neg h0, if_neg h1, if_neg h2, if_pos h3]
          rw [hsql]
          exact enforce_branch2 (trimJs s) m hdash' hblock' h3
        · exfalso
          unfold enforceSqlLimit at ha
          rw [if_neg h0, if_neg h1, if_neg h2, if_neg h3] at ha
          exact Bool.noConfusion ha

/-- Witness for C10 at a plain select, checking the reinjected limit is
refused. -/
theorem enforceSqlLimit_no_reinjection_witness :
    enforceSqlLimit (enforceSqlLimit "select * from t".toList 10).sql 10 =
      { sql := (enforceSqlLimit "select * from t".toList 10).sql, applied := false,
        reason := some "existing-limit-detected".toList } :=
  enforceSqlLimit_no_reinjection "select * from t".toList 10 (by decide) (by decide)
    (by decide) (by decide)
